import Mathlib

/-!
# Verification of the kanban task-tracking core

Shallow embedding of `src/kanban/src/{domain.rs, repository.rs, service.rs}`:
the `Task` entity with its pre-condition checks, the in-memory repository
(`InMemoryTaskRepository`) and the service layer (`TaskService`).

Rust's mutation through `&mut self` is modelled by explicit state passing:
every mutating operation returns the new repository/service state (wrapped in
`Except String` where the Rust function returns `Result<_, String>`).  In the
Rust code every error return happens before any mutation, so a failing call
leaves the state unchanged; the embedding reflects this by threading the old
state on the error path of `applyOp`.  `DateTime<Utc>` is modelled as `Nat`
and `Utc::now()` as an explicit `now` argument, since timestamp generation is
an external input.  Rust `String` is kept as Lean `String`, with
`to_lowercase` modelled by `Char.toLower` on the character list.
-/

namespace Kanban

/-- `Status` from `domain.rs`: lifecycle states plus the `None` query
wildcard. -/
inductive Status where
  | Todo
  | Doing
  | Done
  | None
deriving DecidableEq, Repr

/-- `Task` from `domain.rs`. -/
structure Task where
  id : Option Nat
  name : String
  description : String
  status : Status
  created_at : Nat
  updated_at : Option Nat
deriving DecidableEq, Repr

/-- Rust `str::to_lowercase` (ASCII model): lowercase every character. -/
def lowerStr (s : String) : String :=
  ⟨s.data.map Char.toLower⟩

/-- `Task::new` from `domain.rs`: fresh task, status `Todo`, no id, no
`updated_at`; `created_at` is the supplied clock value. -/
def Task.new (name description : String) (now : Nat) : Task :=
  { id := none
    name := name
    description := description
    status := Status.Todo
    created_at := now
    updated_at := none }

/-- `Task::before_add` from `domain.rs`. -/
def Task.before_add (t : Task) : Except String Unit :=
  if t.name = "" then
    Except.error "Task name is required"
  else if t.status ≠ Status.Todo then
    Except.error "New task must be in todo state"
  else
    Except.ok ()

/-- `Task::before_move_to_doing` from `domain.rs`. -/
def Task.before_move_to_doing (t : Task) : Except String Unit :=
  if t.status ≠ Status.Todo then
    Except.error "New task must be in the Todo state"
  else
    Except.ok ()

/-- `Task::before_move_to_done` from `domain.rs`. -/
def Task.before_move_to_done (t : Task) : Except String Unit :=
  if t.status ≠ Status.Doing then
    Except.error "New task must be in progress to mark as complete"
  else
    Except.ok ()

/-- `InMemoryTaskRepository` from `repository.rs`: a vector of tasks. -/
structure InMemoryTaskRepository where
  tasks : List Task
deriving DecidableEq, Repr

/-- `InMemoryTaskRepository::new`. -/
def InMemoryTaskRepository.new : InMemoryTaskRepository :=
  ⟨[]⟩

/-- `find_by_name` from `repository.rs`: first task whose lowercased name
equals the lowercased query (`iter_mut().find`). -/
def InMemoryTaskRepository.find_by_name (r : InMemoryTaskRepository)
    (name : String) : Option Task :=
  r.tasks.find? (fun t => lowerStr t.name == lowerStr name)

/-- `find_by_id` from `repository.rs`: first task whose id is `Some id`. -/
def InMemoryTaskRepository.find_by_id (r : InMemoryTaskRepository)
    (id : Nat) : Option Task :=
  r.tasks.find? (fun t => t.id == some id)

/-- The duplicate-name error message built by `add_task` in
`repository.rs`. -/
def dupMsg (name : String) : String :=
  "Task with name '" ++ name ++ "' already exists"

/-- `add_task` from `repository.rs`: reject a case-insensitive duplicate
name, otherwise assign `id = len + 1`, push, and return the stored task. -/
def InMemoryTaskRepository.add_task (r : InMemoryTaskRepository)
    (task : Task) : Except String (InMemoryTaskRepository × Task) :=
  match r.find_by_name task.name with
  | some t => Except.error (dupMsg t.name)
  | none =>
      let stored := { task with id := some (r.tasks.length + 1) }
      Except.ok (⟨r.tasks ++ [stored]⟩, stored)

/-- State of the repository after `add_task` (the Rust method mutates
`&mut self`; on the error path nothing was pushed, so the state is
unchanged). -/
def InMemoryTaskRepository.after_add (r : InMemoryTaskRepository)
    (task : Task) : InMemoryTaskRepository :=
  match r.add_task task with
  | Except.ok (r', _) => r'
  | Except.error _ => r

/-- `update` from `repository.rs`: replace the first stored task whose id
equals `task.id`; silently no-op when there is no match. -/
def InMemoryTaskRepository.update (r : InMemoryTaskRepository)
    (task : Task) : InMemoryTaskRepository :=
  match r.tasks.findIdx? (fun t => t.id == task.id) with
  | some pos => ⟨r.tasks.set pos task⟩
  | none => r

/-- Mutate the first list element satisfying `p` with `f`, leaving the rest
unchanged: the effect of mutating through the `&mut Task` returned by
`iter_mut().find`. -/
def setFirst (p : Task → Bool) (f : Task → Task) : List Task → List Task
  | [] => []
  | t :: ts => if p t then f t :: ts else t :: setFirst p f ts

/-- `move_to_doing` from `repository.rs`: find by id (`NotFound` if absent),
require status `Todo`, then set status `Doing` and `updated_at = now` on the
found task. -/
def InMemoryTaskRepository.move_to_doing (r : InMemoryTaskRepository)
    (id now : Nat) : Except String InMemoryTaskRepository :=
  match r.find_by_id id with
  | none => Except.error "Task not found"
  | some task =>
      if task.status ≠ Status.Todo then
        Except.error "task must be in Todo state to move to in progress"
      else
        Except.ok ⟨setFirst (fun t => t.id == some id)
          (fun t => { t with status := Status.Doing, updated_at := some now })
          r.tasks⟩

/-- `move_to_done` from `repository.rs`: find by id (`NotFound` if absent),
require status `Doing`, then set status `Done` and `updated_at = now` on the
found task. -/
def InMemoryTaskRepository.move_to_done (r : InMemoryTaskRepository)
    (id now : Nat) : Except String InMemoryTaskRepository :=
  match r.find_by_id id with
  | none => Except.error "Task not found"
  | some task =>
      if task.status ≠ Status.Doing then
        Except.error "task must be in progress to mark as complete"
      else
        Except.ok ⟨setFirst (fun t => t.id == some id)
          (fun t => { t with status := Status.Done, updated_at := some now })
          r.tasks⟩

/-- `list_by_status` from `repository.rs`: all tasks when the filter is the
`None` wildcard, otherwise the tasks with exactly that status, in storage
order. -/
def InMemoryTaskRepository.list_by_status (r : InMemoryTaskRepository)
    (status : Status) : List Task :=
  if status == Status.None then
    r.tasks
  else
    r.tasks.filter (fun t => t.status == status)

/-- `TaskService` from `service.rs`, wrapping its injected repository. -/
structure TaskService where
  repo : InMemoryTaskRepository
deriving DecidableEq, Repr

/-- `TaskService::add_task`: construct the task, run `before_add`, then
delegate to the repository's `add_task`. -/
def TaskService.add_task (s : TaskService) (name desc : String)
    (now : Nat) : Except String (TaskService × Task) :=
  match (Task.new name desc now).before_add with
  | Except.error e => Except.error e
  | Except.ok _ =>
      match s.repo.add_task (Task.new name desc now) with
      | Except.error e => Except.error e
      | Except.ok (r, t) => Except.ok (⟨r⟩, t)

/-- `TaskService::move_to_doing`: `find_by_id` (error if absent), validate
with `before_move_to_doing`, then delegate to the repository. -/
def TaskService.move_to_doing (s : TaskService) (id now : Nat) :
    Except String TaskService :=
  match s.repo.find_by_id id with
  | none => Except.error "No task found"
  | some task =>
      match task.before_move_to_doing with
      | Except.error e => Except.error e
      | Except.ok _ =>
          match s.repo.move_to_doing id now with
          | Except.error e => Except.error e
          | Except.ok r => Except.ok ⟨r⟩

/-- `TaskService::move_to_done`: `find_by_id` (error if absent), validate
with `before_move_to_done`, then delegate to the repository. -/
def TaskService.move_to_done (s : TaskService) (id now : Nat) :
    Except String TaskService :=
  match s.repo.find_by_id id with
  | none => Except.error "No task found"
  | some task =>
      match task.before_move_to_done with
      | Except.error e => Except.error e
      | Except.ok _ =>
          match s.repo.move_to_done id now with
          | Except.error e => Except.error e
          | Except.ok r => Except.ok ⟨r⟩

/-- `TaskService::list_by_status`: pure delegation. -/
def TaskService.list_by_status (s : TaskService) (status : Status) :
    List Task :=
  s.repo.list_by_status status

/-- `TaskService::find_by_id`: pure delegation. -/
def TaskService.find_by_id (s : TaskService) (id : Nat) : Option Task :=
  s.repo.find_by_id id

/-- One service-level operation, with the clock value it observes. -/
inductive Op where
  | add (name description : String) (now : Nat)
  | moveDoing (id now : Nat)
  | moveDone (id now : Nat)
  | listByStatus (status : Status)
  | findById (id : Nat)
deriving DecidableEq, Repr

/-- Apply one operation to the service state.  Queries leave the state
unchanged; a failing mutation also leaves it unchanged (in the Rust code
every error return precedes any mutation). -/
def applyOp (s : TaskService) (op : Op) : TaskService :=
  match op with
  | Op.add name desc now =>
      match s.add_task name desc now with
      | Except.ok (s', _) => s'
      | Except.error _ => s
  | Op.moveDoing id now =>
      match s.move_to_doing id now with
      | Except.ok s' => s'
      | Except.error _ => s
  | Op.moveDone id now =>
      match s.move_to_done id now with
      | Except.ok s' => s'
      | Except.error _ => s
  | Op.listByStatus _ => s
  | Op.findById _ => s

/-- The service state reached by a sequence of operations from a fresh
service over an empty repository. -/
def run (ops : List Op) : TaskService :=
  ops.foldl applyOp ⟨InMemoryTaskRepository.new⟩

/-- Concrete task builder for closed instantiations of the theorems. -/
def mkTask (i : Nat) (nm ds : String) (st : Status) (ca : Nat)
    (ua : Option Nat) : Task :=
  { id := some i, name := nm, description := ds, status := st,
    created_at := ca, updated_at := ua }

/-- The status at an index only ever stays put or advances one step along
`Todo → Doing → Done`. -/
def statusForward (a b : Status) : Prop :=
  b = a ∨ (a = Status.Todo ∧ b = Status.Doing) ∨
    (a = Status.Doing ∧ b = Status.Done)

theorem setFirst_length (p : Task → Bool) (f : Task → Task) :
    ∀ l : List Task, (setFirst p f l).length = l.length := by
  intro l
  induction l with
  | nil => rfl
  | cons t ts ih =>
      by_cases h : p t <;> simp [setFirst, h, ih]

theorem setFirst_spec (p : Task → Bool) (f : Task → Task) :
    ∀ (l : List Task) (t : Task), l.find? p = some t →
      ∃ i, l[i]? = some t ∧ p t = true ∧ setFirst p f l = l.set i (f t) := by
  intro l
  induction l with
  | nil => intro t h; simp [List.find?] at h
  | cons a ts ih =>
      intro t h
      by_cases hp : p a
      · rw [List.find?_cons_of_pos _ hp] at h
        obtain rfl : a = t := by injection h
        exact ⟨0, by simp, hp, by simp [setFirst, hp]⟩
      · rw [List.find?_cons_of_neg _ hp] at h
        obtain ⟨i, hget, hpt, hset⟩ := ih t h
        exact ⟨i + 1, by simpa using hget, hpt,
          by simp [setFirst, hp, hset]⟩

/-- Elimination form of a successful repository `add_task`. -/
theorem repoAdd_ok_elim
    (r r' : InMemoryTaskRepository) (task t : Task)
    (h : r.add_task task = Except.ok (r', t)) :
    r.find_by_name task.name = none ∧
      t = { task with id := some (r.tasks.length + 1) } ∧
      r'.tasks = r.tasks ++ [t] := by
  unfold InMemoryTaskRepository.add_task at h
  cases hf : r.find_by_name task.name with
  | some t0 => rw [hf] at h; exact absurd h (by simp)
  | none =>
      rw [hf] at h
      simp only [Except.ok.injEq, Prod.mk.injEq] at h
      obtain ⟨hr, ht⟩ := h
      exact ⟨rfl, ht.symm, by rw [← hr, ← ht]⟩

/-- A successful repository `add_task` when there is no name collision. -/
theorem InMemoryTaskRepository.add_task_ok_intro
    (r : InMemoryTaskRepository) (task : Task)
    (h : r.find_by_name task.name = none) :
    r.add_task task =
      Except.ok (⟨r.tasks ++ [{ task with id := some (r.tasks.length + 1) }]⟩,
        { task with id := some (r.tasks.length + 1) }) := by
  unfold InMemoryTaskRepository.add_task
  rw [h]

/-- Elimination form of a successful service `add_task`. -/
theorem serviceAdd_ok_elim (s : TaskService) (name desc : String)
    (now : Nat) (s' : TaskService) (t : Task)
    (h : s.add_task name desc now = Except.ok (s', t)) :
    name ≠ "" ∧ s.repo.find_by_name name = none ∧
      t = { Task.new name desc now with
              id := some (s.repo.tasks.length + 1) } ∧
      s'.repo.tasks = s.repo.tasks ++ [t] := by
  by_cases hn : name = ""
  · have hba : (Task.new name desc now).before_add =
        Except.error "Task name is required" := by
      unfold Task.before_add
      simp [Task.new, hn]
    unfold TaskService.add_task at h
    rw [hba] at h
    exact absurd h (by simp)
  · have hba : (Task.new name desc now).before_add = Except.ok () := by
      unfold Task.before_add
      simp [Task.new, hn]
    unfold TaskService.add_task at h
    rw [hba] at h
    cases hadd : s.repo.add_task (Task.new name desc now) with
    | error e =>
        rw [hadd] at h
        exact absurd h (by simp)
    | ok p =>
        rw [hadd] at h
        obtain ⟨r0, t0⟩ := p
        simp only [Except.ok.injEq, Prod.mk.injEq] at h
        obtain ⟨hs, ht⟩ := h
        obtain ⟨hfind, htid, hrt⟩ :=
          repoAdd_ok_elim _ _ _ _ hadd
        refine ⟨hn, ?_, ?_, ?_⟩
        · have hnm : (Task.new name desc now).name = name := rfl
          rw [← hnm]
          exact hfind
        · rw [← ht, htid]
        · rw [← hs, ← ht]
          simpa using hrt

/-- A service `move_to_doing` succeeds on a stored `Todo` task, updating the
first task carrying that id. -/
theorem TaskService.move_to_doing_ok (s : TaskService) (id now : Nat)
    (task : Task) (hf : s.repo.find_by_id id = some task)
    (hs : task.status = Status.Todo) :
    s.move_to_doing id now =
      Except.ok ⟨⟨setFirst (fun t => t.id == some id)
        (fun t => { t with status := Status.Doing, updated_at := some now })
        s.repo.tasks⟩⟩ := by
  unfold TaskService.move_to_doing
  rw [hf]
  dsimp only
  have hv : task.before_move_to_doing = Except.ok () := by
    unfold Task.before_move_to_doing
    simp [hs]
  rw [hv]
  dsimp only
  unfold InMemoryTaskRepository.move_to_doing
  rw [hf]
  dsimp only
  simp [hs]

/-- A service `move_to_done` succeeds on a stored `Doing` task, updating the
first task carrying that id. -/
theorem TaskService.move_to_done_ok (s : TaskService) (id now : Nat)
    (task : Task) (hf : s.repo.find_by_id id = some task)
    (hs : task.status = Status.Doing) :
    s.move_to_done id now =
      Except.ok ⟨⟨setFirst (fun t => t.id == some id)
        (fun t => { t with status := Status.Done, updated_at := some now })
        s.repo.tasks⟩⟩ := by
  unfold TaskService.move_to_done
  rw [hf]
  dsimp only
  have hv : task.before_move_to_done = Except.ok () := by
    unfold Task.before_move_to_done
    simp [hs]
  rw [hv]
  dsimp only
  unfold InMemoryTaskRepository.move_to_done
  rw [hf]
  dsimp only
  simp [hs]

/-- After one `add` operation the stored list is unchanged (the add failed)
or extended by one task. -/
theorem applyOp_add_shape (s : TaskService) (name desc : String)
    (now : Nat) :
    (applyOp s (Op.add name desc now)).repo.tasks = s.repo.tasks ∨
      (applyOp s (Op.add name desc now)).repo.tasks =
        s.repo.tasks ++
          [{ Task.new name desc now with
               id := some (s.repo.tasks.length + 1) }] := by
  unfold applyOp
  dsimp only
  cases h : s.add_task name desc now with
  | error e => exact Or.inl rfl
  | ok p =>
      obtain ⟨s', t⟩ := p
      obtain ⟨-, -, ht, hs'⟩ := serviceAdd_ok_elim _ _ _ _ _ _ h
      right
      dsimp only
      rw [hs', ht]

/-- After one `moveDoing` operation the state is unchanged, or the first
task carrying the id was `Todo` and is updated in place. -/
theorem applyOp_moveDoing_shape (s : TaskService) (id now : Nat) :
    applyOp s (Op.moveDoing id now) = s ∨
      (∃ task, s.repo.find_by_id id = some task ∧
        task.status = Status.Todo ∧
        (applyOp s (Op.moveDoing id now)).repo.tasks =
          setFirst (fun t => t.id == some id)
            (fun t => { t with status := Status.Doing,
                               updated_at := some now })
            s.repo.tasks) := by
  cases hf : s.repo.find_by_id id with
  | none =>
      left
      unfold applyOp TaskService.move_to_doing
      dsimp only
      rw [hf]
  | some task =>
      by_cases hs : task.status = Status.Todo
      · right
        refine ⟨task, rfl, hs, ?_⟩
        unfold applyOp
        dsimp only
        rw [TaskService.move_to_doing_ok s id now task hf hs]
      · left
        unfold applyOp TaskService.move_to_doing
        dsimp only
        rw [hf]
        dsimp only
        have hv : task.before_move_to_doing =
            Except.error "New task must be in the Todo state" := by
          unfold Task.before_move_to_doing
          simp [hs]
        rw [hv]

/-- After one `moveDone` operation the state is unchanged, or the first
task carrying the id was `Doing` and is updated in place. -/
theorem applyOp_moveDone_shape (s : TaskService) (id now : Nat) :
    applyOp s (Op.moveDone id now) = s ∨
      (∃ task, s.repo.find_by_id id = some task ∧
        task.status = Status.Doing ∧
        (applyOp s (Op.moveDone id now)).repo.tasks =
          setFirst (fun t => t.id == some id)
            (fun t => { t with status := Status.Done,
                               updated_at := some now })
            s.repo.tasks) := by
  cases hf : s.repo.find_by_id id with
  | none =>
      left
      unfold applyOp TaskService.move_to_done
      dsimp only
      rw [hf]
  | some task =>
      by_cases hs : task.status = Status.Doing
      · right
        refine ⟨task, rfl, hs, ?_⟩
        unfold applyOp
        dsimp only
        rw [TaskService.move_to_done_ok s id now task hf hs]
      · left
        unfold applyOp TaskService.move_to_done
        dsimp only
        rw [hf]
        dsimp only
        have hv : task.before_move_to_done =
            Except.error "New task must be in progress to mark as complete" := by
          unfold Task.before_move_to_done
          simp [hs]
        rw [hv]

/-- One operation never moves the status at any index backward or over a
step. -/
theorem applyOp_statusForward (s : TaskService) (op : Op) (i : Nat)
    (t t' : Task) (h : s.repo.tasks[i]? = some t)
    (h' : (applyOp s op).repo.tasks[i]? = some t') :
    statusForward t.status t'.status := by
  have same : ∀ u u' : Task, some u = some u' →
      statusForward u.status u'.status := by
    intro u u' hu
    injection hu with hu
    exact Or.inl (by rw [hu])
  cases op with
  | listByStatus st => exact same t t' (h ▸ h')
  | findById id => exact same t t' (h ▸ h')
  | add name desc now =>
      rcases applyOp_add_shape s name desc now with hsh | hsh
      · rw [hsh, h] at h'
        exact same t t' (by rw [h'])
      · rw [hsh] at h'
        have hi : i < s.repo.tasks.length :=
          (List.getElem?_eq_some_iff.mp h).1
        rw [List.getElem?_append_left hi, h] at h'
        exact same t t' (by rw [h'])
  | moveDoing id now =>
      rcases applyOp_moveDoing_shape s id now with hsh | hsh
      · rw [hsh, h] at h'
        exact same t t' (by rw [h'])
      · obtain ⟨task, hf, hst, htasks⟩ := hsh
        obtain ⟨j, hj, -, hset⟩ :=
          setFirst_spec (fun u => u.id == some id)
            (fun u => { u with status := Status.Doing,
                               updated_at := some now })
            s.repo.tasks task hf
        rw [htasks, hset] at h'
        by_cases hij : j = i
        · subst hij
          rw [hj] at h
          injection h with h
          have hjlt : j < s.repo.tasks.length :=
            (List.getElem?_eq_some_iff.mp hj).1
          rw [List.getElem?_set_self (by simpa using hjlt)] at h'
          injection h' with h'
          right; left
          constructor
          · rw [← h]; exact hst
          · rw [← h']
        · rw [List.getElem?_set_ne hij, h] at h'
          exact same t t' (by rw [h'])
  | moveDone id now =>
      rcases applyOp_moveDone_shape s id now with hsh | hsh
      · rw [hsh, h] at h'
        exact same t t' (by rw [h'])
      · obtain ⟨task, hf, hst, htasks⟩ := hsh
        obtain ⟨j, hj, -, hset⟩ :=
          setFirst_spec (fun u => u.id == some id)
            (fun u => { u with status := Status.Done,
                               updated_at := some now })
            s.repo.tasks task hf
        rw [htasks, hset] at h'
        by_cases hij : j = i
        · subst hij
          rw [hj] at h
          injection h with h
          have hjlt : j < s.repo.tasks.length :=
            (List.getElem?_eq_some_iff.mp hj).1
          rw [List.getElem?_set_self (by simpa using hjlt)] at h'
          injection h' with h'
          right; right
          constructor
          · rw [← h]; exact hst
          · rw [← h']
        · rw [List.getElem?_set_ne hij, h] at h'
          exact same t t' (by rw [h'])

theorem run_append (ops : List Op) (op : Op) :
    run (ops ++ [op]) = applyOp (run ops) op := by
  simp [run, List.foldl_append]

/-- C1: for every sequence of service operations from an empty repository,
one further operation changes each stored task's status only along
`Todo → Doing → Done` — it stays put or advances one step, never moves
backward and never skips `Doing`. -/
theorem forward_only_lifecycle (ops : List Op) (op : Op) (i : Nat)
    (t t' : Task) (h : (run ops).repo.tasks[i]? = some t)
    (h' : (run (ops ++ [op])).repo.tasks[i]? = some t') :
    statusForward t.status t'.status := by
  rw [run_append] at h'
  exact applyOp_statusForward (run ops) op i t t' h h'

theorem forward_only_lifecycle_witness :
    statusForward Status.Todo Status.Doing :=
  forward_only_lifecycle [Op.add "task1" "d1" 0] (Op.moveDoing 1 5) 0
    { id := some 1, name := "task1", description := "d1",
      status := Status.Todo, created_at := 0, updated_at := none }
    { id := some 1, name := "task1", description := "d1",
      status := Status.Doing, created_at := 0, updated_at := some 5 }
    (by decide) (by decide)

/-- C3: adding a task whose name collides case-insensitively with a stored
task fails with the duplicate-name error carrying the existing task's name,
and leaves the repository unchanged. -/
theorem duplicate_name_rejected (r : InMemoryTaskRepository) (task : Task)
    (hdup : ∃ t0 ∈ r.tasks, lowerStr t0.name = lowerStr task.name) :
    ∃ t1 ∈ r.tasks, lowerStr t1.name = lowerStr task.name ∧
      r.add_task task = Except.error (dupMsg t1.name) ∧
      r.after_add task = r := by
  have hsome : (r.find_by_name task.name).isSome = true := by
    unfold InMemoryTaskRepository.find_by_name
    rw [List.find?_isSome]
    obtain ⟨t0, hmem, heq⟩ := hdup
    exact ⟨t0, hmem, by rw [beq_iff_eq]; exact heq⟩
  obtain ⟨t1, hf⟩ := Option.isSome_iff_exists.mp hsome
  have hf' : r.tasks.find?
      (fun t => lowerStr t.name == lowerStr task.name) = some t1 := hf
  have hmem := List.mem_of_find?_eq_some hf'
  have hpt := List.find?_some hf'
  simp only [beq_iff_eq] at hpt
  have hpred : lowerStr t1.name = lowerStr task.name := hpt
  have herr : r.add_task task = Except.error (dupMsg t1.name) := by
    unfold InMemoryTaskRepository.add_task
    rw [hf]
  refine ⟨t1, hmem, hpred, herr, ?_⟩
  unfold InMemoryTaskRepository.after_add
  rw [herr]

theorem duplicate_name_rejected_witness :
    ∃ t1 ∈ ({ tasks := [mkTask 1 "Task1" "b" Status.Todo 0 none] } :
        InMemoryTaskRepository).tasks,
      lowerStr t1.name = lowerStr (Task.new "task1" "c" 3).name ∧
      ({ tasks := [mkTask 1 "Task1" "b" Status.Todo 0 none] } :
          InMemoryTaskRepository).add_task (Task.new "task1" "c" 3) =
        Except.error (dupMsg t1.name) ∧
      ({ tasks := [mkTask 1 "Task1" "b" Status.Todo 0 none] } :
          InMemoryTaskRepository).after_add (Task.new "task1" "c" 3) =
        { tasks := [mkTask 1 "Task1" "b" Status.Todo 0 none] } :=
  duplicate_name_rejected _ _
    ⟨mkTask 1 "Task1" "b" Status.Todo 0 none, by decide, by decide⟩

/-- C4: `move_to_doing(id)` fails with the not-found error when no stored
task has that id, fails with the wrong-state validation error when the
found task is not `Todo`, and otherwise succeeds, replacing the found task
with a copy whose status is `Doing` and whose `updated_at` is the supplied
clock value, all other positions unchanged. -/
theorem move_to_doing_contract (s : TaskService) (id now : Nat) :
    (s.repo.find_by_id id = none →
      s.move_to_doing id now = Except.error "No task found") ∧
    (∀ task, s.repo.find_by_id id = some task → task.status ≠ Status.Todo →
      s.move_to_doing id now =
        Except.error "New task must be in the Todo state") ∧
    (∀ task, s.repo.find_by_id id = some task → task.status = Status.Todo →
      ∃ i, s.repo.tasks[i]? = some task ∧
        s.move_to_doing id now = Except.ok ⟨⟨s.repo.tasks.set i
          { task with status := Status.Doing,
                      updated_at := some now }⟩⟩) := by
  refine ⟨?_, ?_, ?_⟩
  · intro h
    unfold TaskService.move_to_doing
    rw [h]
  · intro task hf hs
    unfold TaskService.move_to_doing
    rw [hf]
    dsimp only
    have hv : task.before_move_to_doing =
        Except.error "New task must be in the Todo state" := by
      unfold Task.before_move_to_doing
      simp [hs]
    rw [hv]
  · intro task hf hs
    obtain ⟨i, hget, -, hset⟩ := setFirst_spec (fun t => t.id == some id)
      (fun t => { t with status := Status.Doing, updated_at := some now })
      s.repo.tasks task hf
    refine ⟨i, hget, ?_⟩
    rw [TaskService.move_to_doing_ok s id now task hf hs, hset]

theorem move_to_doing_contract_witness :
    (⟨⟨[]⟩⟩ : TaskService).move_to_doing 1 0 =
        Except.error "No task found" ∧
      (⟨⟨[mkTask 1 "a" "b" Status.Todo 0 none]⟩⟩ :
          TaskService).move_to_doing 1 7 =
        Except.ok ⟨⟨[mkTask 1 "a" "b" Status.Doing 0 (some 7)]⟩⟩ := by
  constructor
  · exact (move_to_doing_contract ⟨⟨[]⟩⟩ 1 0).1 (by rfl)
  · obtain ⟨i, hget, hok⟩ :=
      (move_to_doing_contract ⟨⟨[mkTask 1 "a" "b" Status.Todo 0 none]⟩⟩
        1 7).2.2 (mkTask 1 "a" "b" Status.Todo 0 none) (by rfl) (by rfl)
    match i, hget, hok with
    | 0, _, hok => exact hok
    | n + 1, hget, _ => simp [mkTask] at hget

/-- C6 counterexample: the repository's own `add_task` accepts a task with
an empty name — the "new task" pre-condition is not checked at the
repository layer. -/
theorem repo_add_accepts_empty_name :
    (Task.new "" "d" 0).name = "" ∧
      InMemoryTaskRepository.new.add_task (Task.new "" "d" 0) =
        Except.ok (⟨[{ Task.new "" "d" 0 with id := some 1 }]⟩,
          { Task.new "" "d" 0 with id := some 1 }) := by
  constructor <;> rfl

/-- C6 amended: the repository's `add_task` enforces only name uniqueness
(it accepts any task without a case-insensitive name collision, empty name
or not); the "new task" pre-condition is enforced one layer up, by the
service's `add_task` through `before_add`. -/
theorem repo_add_validation_split :
    (∀ (r : InMemoryTaskRepository) (task : Task),
        (∀ t0 ∈ r.tasks, lowerStr t0.name ≠ lowerStr task.name) →
          ∃ r' t, r.add_task task = Except.ok (r', t)) ∧
    (∀ (s : TaskService) (desc : String) (now : Nat),
        s.add_task "" desc now = Except.error "Task name is required") ∧
    (∀ (s : TaskService) (name desc : String) (now : Nat)
        (s' : TaskService) (t : Task),
        s.add_task name desc now = Except.ok (s', t) → name ≠ "") := by
  refine ⟨?_, ?_, ?_⟩
  · intro r task hno
    have hfind : r.find_by_name task.name = none := by
      unfold InMemoryTaskRepository.find_by_name
      rw [List.find?_eq_none]
      intro x hmem
      simp only [beq_eq_false_iff_ne, ne_eq, Bool.not_eq_true]
      exact fun hx => hno x hmem (by simpa using hx)
    exact ⟨_, _, InMemoryTaskRepository.add_task_ok_intro r task hfind⟩
  · intro s desc now
    rfl
  · intro s name desc now s' t h
    exact (serviceAdd_ok_elim _ _ _ _ _ _ h).1

theorem repo_add_validation_split_witness :
    ((⟨⟨[]⟩⟩ : TaskService).add_task "" "d" 0 =
        Except.error "Task name is required") ∧
      ("x" : String) ≠ "" :=
  ⟨repo_add_validation_split.2.1 ⟨⟨[]⟩⟩ "d" 0,
   repo_add_validation_split.2.2 ⟨⟨[]⟩⟩ "x" "y" 2
     ⟨⟨[{ Task.new "x" "y" 2 with id := some 1 }]⟩⟩
     { Task.new "x" "y" 2 with id := some 1 } (by rfl)⟩

/-- C7: `update` silently no-ops when no stored task carries the incoming
task's id; when one does, it replaces exactly the first such task and
leaves every other position (and the length) unchanged. -/
theorem update_contract (r : InMemoryTaskRepository) (task : Task) :
    ((∀ t0 ∈ r.tasks, t0.id ≠ task.id) → r.update task = r) ∧
    ((∃ t0 ∈ r.tasks, t0.id = task.id) →
      ∃ i u, r.tasks[i]? = some u ∧ u.id = task.id ∧
        (∀ (j : Nat) (v : Task), j < i → r.tasks[j]? = some v →
          v.id ≠ task.id) ∧
        (r.update task).tasks[i]? = some task ∧
        (∀ j : Nat, j ≠ i → (r.update task).tasks[j]? = r.tasks[j]?) ∧
        (r.update task).tasks.length = r.tasks.length) := by
  constructor
  · intro hno
    unfold InMemoryTaskRepository.update
    have hnone : r.tasks.findIdx? (fun t => t.id == task.id) = none := by
      rw [List.findIdx?_eq_none_iff]
      intro x hmem
      simp only [beq_eq_false_iff_ne, ne_eq]
      exact hno x hmem
    rw [hnone]
  · intro hex
    have hex' : ∃ x, x ∈ r.tasks ∧ (fun t => t.id == task.id) x := by
      obtain ⟨t0, hmem, hid⟩ := hex
      exact ⟨t0, hmem, by simpa [beq_iff_eq] using hid⟩
    have hidx := List.findIdx?_eq_some_of_exists hex'
    obtain ⟨hlt, hp, hmin⟩ := List.findIdx?_eq_some_iff_getElem.mp hidx
    have hupd : (r.update task).tasks =
        r.tasks.set (r.tasks.findIdx (fun t => t.id == task.id)) task := by
      unfold InMemoryTaskRepository.update
      rw [hidx]
    refine ⟨r.tasks.findIdx (fun t => t.id == task.id),
      r.tasks.get ⟨r.tasks.findIdx (fun t => t.id == task.id), hlt⟩,
      ?_, ?_, ?_, ?_, ?_, ?_⟩
    · simp [List.getElem?_eq_getElem hlt]
    · simpa [beq_iff_eq] using hp
    · intro j v hj hgetj
      have hnp := hmin j hj
      obtain ⟨hjlt, hjv⟩ := List.getElem?_eq_some_iff.mp hgetj
      rw [← hjv]
      simpa [beq_iff_eq] using hnp
    · rw [hupd]
      exact List.getElem?_set_self hlt
    · intro j hj
      rw [hupd, List.getElem?_set_ne (Ne.symm hj)]
    · rw [hupd]
      simp

theorem update_contract_witness :
    ({ tasks := [mkTask 1 "a" "b" Status.Todo 0 none] } :
        InMemoryTaskRepository).update
        (mkTask 2 "c" "d" Status.Doing 1 none) =
      { tasks := [mkTask 1 "a" "b" Status.Todo 0 none] } :=
  (update_contract _ _).1 (by decide)

/-- C8: `list_by_status` with a real status returns exactly the stored
tasks of that status, in insertion order (a filter of the storage list,
hence a sublist); with the `None` wildcard it returns every stored task in
insertion order. -/
theorem list_by_status_semantics (r : InMemoryTaskRepository)
    (status : Status) :
    (status ≠ Status.None →
      r.list_by_status status =
        r.tasks.filter (fun t => t.status == status)) ∧
    r.list_by_status Status.None = r.tasks ∧
    (r.list_by_status status).Sublist r.tasks := by
  refine ⟨?_, ?_, ?_⟩
  · intro h
    unfold InMemoryTaskRepository.list_by_status
    simp [beq_iff_eq, h]
  · rfl
  · unfold InMemoryTaskRepository.list_by_status
    by_cases h : status == Status.None
    · simp [h]
    · simp only [h, Bool.false_eq_true, if_false, reduceIte]
      exact List.filter_sublist _

theorem list_by_status_semantics_witness :
    ({ tasks := [mkTask 1 "a" "b" Status.Todo 0 none,
        mkTask 2 "c" "d" Status.Doing 0 none] } :
          InMemoryTaskRepository).list_by_status Status.Doing =
      [mkTask 1 "a" "b" Status.Todo 0 none,
        mkTask 2 "c" "d" Status.Doing 0 none].filter
        (fun t => t.status == Status.Doing) :=
  (list_by_status_semantics _ Status.Doing).1 (by decide)

/-- C9: after a successful service add, `find_by_name` with any case
variant of the added name returns a task with the added name and
description and status `Todo`. -/
theorem add_find_round_trip (s s' : TaskService) (t : Task)
    (name desc v : String) (now : Nat)
    (hadd : s.add_task name desc now = Except.ok (s', t))
    (hv : lowerStr v = lowerStr name) :
    ∃ u, s'.repo.find_by_name v = some u ∧
      u.name = name ∧ u.description = desc ∧ u.status = Status.Todo := by
  obtain ⟨hn, hfind, ht, htasks⟩ :=
    serviceAdd_ok_elim _ _ _ _ _ _ hadd
  have hname : t.name = name := by rw [ht]; rfl
  have hdesc : t.description = desc := by rw [ht]; rfl
  have hstat : t.status = Status.Todo := by rw [ht]; rfl
  refine ⟨t, ?_, hname, hdesc, hstat⟩
  unfold InMemoryTaskRepository.find_by_name
  rw [htasks, List.find?_append]
  have hfind' : s.repo.tasks.find?
      (fun u => lowerStr u.name == lowerStr name) = none := hfind
  have hold : s.repo.tasks.find?
      (fun u => lowerStr u.name == lowerStr v) = none := by
    rw [List.find?_eq_none]
    intro x hmem
    have hx := List.find?_eq_none.mp hfind' x hmem
    rw [hv]
    exact hx
  rw [hold]
  simp only [Option.none_or, List.find?_cons, List.find?_nil]
  rw [show (lowerStr t.name == lowerStr v) = true by
    rw [beq_iff_eq, hname, hv]]

theorem add_find_round_trip_witness :
    ∃ u, (⟨⟨[{ Task.new "Task1" "d" 0 with id := some 1 }]⟩⟩ :
        TaskService).repo.find_by_name "TASK1" = some u ∧
      u.name = "Task1" ∧ u.description = "d" ∧ u.status = Status.Todo :=
  add_find_round_trip ⟨⟨[]⟩⟩
    ⟨⟨[{ Task.new "Task1" "d" 0 with id := some 1 }]⟩⟩
    { Task.new "Task1" "d" 0 with id := some 1 }
    "Task1" "d" "TASK1" 0 (by rfl) (by decide)

end Kanban
